import Mathlib

/-!
# Verification of the gocsi interceptor layer

This development embeds the gocsi middleware layer in Lean 4 and proves the
central properties of its three hardest members: the logging interceptor
(translated directly from interceptors_logger.go), the spec validator and
version model, the idempotency engine ("serial resource access"), and the
pagination engine.  The latter three components are exercised by the test
suite (controller_test.go, identity_test.go) and by the csc front end but
their implementation files are not part of the source corpus, so they are
modelled from the design document, as marked on each definition.
-/

namespace Gocsi

/-! ## Version model and spec validator (modelled from the spec) -/

/-- Modelled from the spec: a protocol version triple
`{major, minor, patch : unsigned integer}` (spec section 3); equality is
field-wise.  The implementation file for the version model is not in the
source corpus. -/
structure Version where
  major : Nat
  minor : Nat
  patch : Nat
deriving DecidableEq

/-- Modelled from the spec: rendering of a version as `MAJOR.MINOR.PATCH`
text, as used by the validator error messages observed in identity_test.go
("invalid request version: 0.0.0"). -/
def sprintfVersion (v : Version) : String :=
  toString v.major ++ "." ++ toString v.minor ++ "." ++ toString v.patch

/-- Modelled from the spec: the error kinds produced locally by the spec
validator (spec section 7): UnsupportedVersion carries the offending
version text ("nil" when the requested version is absent), and
MissingRequiredField is parameterized by the field name. -/
inductive SpecError
  | unsupportedVersion (text : String)
  | missingRequiredField (field : String)
deriving DecidableEq

/-- Modelled from the spec: the human-readable message attached to each
locally generated validator error, matching the messages asserted in
identity_test.go and controller_test.go. -/
def specErrorMessage : SpecError → String
  | .unsupportedVersion text => "invalid request version: " ++ text
  | .missingRequiredField field => field ++ " is required"

/-- The supported-version set configured by the mock server used in the
tests: {0.1.0, 0.2.0, 1.0.0, 1.1.0}. -/
def mockSupportedVersions : List Version :=
  [⟨0, 1, 0⟩, ⟨0, 2, 0⟩, ⟨1, 0, 0⟩, ⟨1, 1, 0⟩]

/-- Modelled from the spec: step 1 of the spec validator (spec section 4.4)
combined with the version model's isSupported (section 4.1): a requested
version is valid iff it matches a configured entry exactly, field for
field; a nil/absent requested version is never supported and the failure
names "nil"; otherwise the failure names the offending version text. -/
def checkVersion (supported : List Version) : Option Version → Except SpecError Unit
  | none => .error (.unsupportedVersion "nil")
  | some v =>
    if v ∈ supported then .ok ()
    else .error (.unsupportedVersion (sprintfVersion v))

/-- Modelled from the spec: the pre-handler part of the spec validator
pipeline (spec section 4.4, steps 1-3).  The implementation file is not in
the source corpus.  `required` lists the configured required fields as
(field name, field value) pairs; a field is missing when its value is the
empty string.  The second component of the result counts invocations of
the wrapped handler. -/
def specValidator {α : Type} (supported : List Version) (ver : Option Version)
    (required : List (String × String)) (handler : Unit → α) :
    Except SpecError α × Nat :=
  match checkVersion supported ver with
  | .error e => (.error e, 0)
  | .ok _ =>
    match required.find? (fun f => f.2 == "") with
    | some f => (.error (.missingRequiredField f.1), 0)
    | none => (.ok (handler ()), 1)

/-! ## Logging interceptor (translated from interceptors_logger.go) -/

/-- Rendered request/response payload: the reflection walk of
rprintReqOrRep visits the payload's fields in declaration order; a payload
is embedded as the list of its (field name, fmt "%v"-rendered value)
pairs. -/
abbrev Fields := List (String × String)

/-- The emptyValRX regular expression of interceptors_logger.go:
it matches exactly the empty string, the empty-list marker, the nil marker
and the empty-map marker. -/
def emptyVal (s : String) : Bool :=
  s == "" || s == "[]" || s == "<nil>" || s == "map[]"

/-- The field loop of rprintReqOrRep (interceptors_logger.go lines
160-180): `out` is the contents of the output buffer, and the two booleans
are the printedColon and printComma flags. -/
def rprintLoop : Fields → String → Bool → Bool → String
  | [], out, _, _ => out
  | f :: rest, out, printedColon, printComma =>
    if f.1 == "UserCredentials" then
      rprintLoop rest out printedColon printComma
    else if emptyVal f.2 then
      rprintLoop rest out printedColon printComma
    else
      let out1 := if printComma then out ++ ", " else out
      let out2 := if printedColon then out1 else out1 ++ ": "
      rprintLoop rest (out2 ++ f.1 ++ "=" ++ f.2) true true

/-- rprintReqOrRep from interceptors_logger.go: renders every non-empty,
non-denylisted field of a payload into the buffer. -/
def rprintReqOrRep (fields : Fields) : String :=
  rprintLoop fields "" false false

/-- The fields of a payload that rprintReqOrRep actually prints: every
field except the denylisted UserCredentials field and the fields whose
rendered value matches emptyValRX. -/
def keptFields (fields : Fields) : Fields :=
  fields.filter fun f => !(f.1 == "UserCredentials") && !(emptyVal f.2)

/-- Specification-side rendering of the tail of the field section: each
further field as `field=value` preceded by the `, ` separator. -/
def commaTail : Fields → String
  | [] => ""
  | f :: rest => ", " ++ f.1 ++ "=" ++ f.2 ++ commaTail rest

/-- Specification-side rendering of the whole field section, following the
claim's words: an empty field list prints no colon/field section at all;
otherwise a `: ` introducer and the `field=value` pairs separated by
`, `. -/
def specFieldJoin : Fields → String
  | [] => ""
  | f :: rest => ": " ++ f.1 ++ "=" ++ f.2 ++ commaTail rest

/-- The zero padding of the "%04d" format verb used for correlation
identifiers. -/
def pad4 (n : Nat) : String :=
  String.mk (List.replicate (4 - (toString n).length) '0') ++ toString n

/-- The head of a log line as built by loggingInterceptor.handle: the
method name, `: `, and - when a correlation id is present - the direction
tag ("REQ" or "REP") and the zero-padded id. -/
def lineHead (tag method : String) (reqID : Option Nat) : String :=
  method ++ ": " ++
    (match reqID with
     | some n => tag ++ " " ++ pad4 n
     | none => "")

/-- The loggingOpts structure of interceptors_logger.go.  A writer is
embedded as the list of lines written to it so far; `none` is the nil
io.Writer of an unconfigured sink. -/
structure LoggingOpts where
  reqw : Option (List String)
  repw : Option (List String)
deriving DecidableEq

/-- The Go runtime faults the interceptor can raise: writing through a nil
io.Writer interface is a nil-pointer dereference panic. -/
inductive GoPanic
  | nilWriterWrite
deriving DecidableEq

/-- fmt.Fprintln applied to a writer of the embedding: appending a line to
a configured writer, and a nil-pointer panic on a nil writer. -/
def fprintlnTo : Option (List String) → String → Except GoPanic (List String)
  | none, _ => .error .nilWriterWrite
  | some lines, line => .ok (lines ++ [line])

/-- The response log line as assembled by loggingInterceptor.handle
(interceptors_logger.go lines 130-145): line head, then the error if the
call failed, then the rendered response payload if it is non-nil.  Note
that the two parts are printed by two independent if statements, not an
either/or. -/
def repLineOf (method : String) (reqID : Option Nat)
    (failed : Option String) (rep : Option Fields) : String :=
  lineHead "REP" method reqID ++
    (match failed with
     | some msg => ": " ++ msg
     | none => "") ++
    (match rep with
     | some fields => rprintReqOrRep fields
     | none => "")

/-- loggingInterceptor.handle from interceptors_logger.go (lines 98-149).
The wrapped call `next` is embedded by its outcome: the response payload
(nil or rendered fields) and the error (nil or its message).  The result
carries the pair returned to the caller together with the final contents
of the two writers; the Go panic on the unguarded
`fmt.Fprintln(s.opts.reqw, ...)` of line 119 is surfaced as an error. -/
def handle (opts : LoggingOpts) (method : String) (reqID : Option Nat)
    (req : Option Fields) (next : Option Fields × Option String) :
    Except GoPanic ((Option Fields × Option String) × LoggingOpts) :=
  match req with
  | none => .ok (next, opts)
  | some reqFields =>
    match fprintlnTo opts.reqw
        (lineHead "REQ" method reqID ++ rprintReqOrRep reqFields) with
    | .error p => .error p
    | .ok reqLines =>
      match opts.repw with
      | none => .ok (next, ⟨some reqLines, none⟩)
      | some repLines =>
        .ok (next, ⟨some reqLines,
          some (repLines ++ [repLineOf method reqID next.2 next.1])⟩)

/-- Number of lines held by a writer of the embedding. -/
def lineCount : Option (List String) → Nat
  | none => 0
  | some lines => lines.length

/-! ## Pagination engine (modelled from the spec) -/

/-- Modelled from the spec: the pagination engine (spec section 4.6,
PageAllVolumes).  The implementation file is not in the source corpus.
The engine repeatedly issues the underlying list call, starting from the
caller-supplied cursor, forwards each response's nextToken into the next
request's startingToken, and terminates when a response's nextToken is the
empty token; any call error terminates the stream immediately, after which
no further values are produced.  Tokens are opaque, so the token type is a
parameter with a designated empty token; the fuel argument is a modelling
bound on the number of pages, needed only for termination.  The result is
the emitted item stream in order together with the terminal error, if
any. -/
def pageAll {τ α ε : Type} [DecidableEq τ] (call : τ → Except ε (List α × τ))
    (emptyTok : τ) : Nat → τ → List α × Option ε
  | 0, _ => ([], none)
  | fuel + 1, tok =>
    match call tok with
    | .error e => ([], some e)
    | .ok (items, next) =>
      if next = emptyTok then (items, none)
      else
        let rest := pageAll call emptyTok fuel next
        (items ++ rest.1, rest.2)

/-- Modelled from the spec: the backing list handler of the collaborator
contract (spec section 6): a deterministic, exhaustive enumeration of a
fixed dataset split into pages of `maxEntries` items.  A token is the
start index of the next page; the empty token is 0. -/
def listServe {α : Type} (data : List α) (maxEntries : Nat) (tok : Nat) :
    Except String (List α × Nat) :=
  .ok ((data.drop tok).take maxEntries,
    if tok + maxEntries < data.length then tok + maxEntries else 0)

/-! ## Idempotency engine (modelled from the spec) -/

/-- Modelled from the spec: the observable phases of one guarded call
passing through the idempotency engine (spec section 4.5): not yet issued,
executing inside the wrapped handler after winning the atomic insertion,
failed immediately with the OperationPending error after losing it, or
completed through the handler. -/
inductive Phase
  | idle
  | inHandler
  | donePending
  | doneCompleted
deriving DecidableEq

/-- Modelled from the spec: a system state of the idempotency engine under
`N` concurrent guarded calls: the In-Flight Registry (the set of Resource
Keys currently executing) and the phase of each call. -/
structure SState (N : Nat) where
  registry : Finset String
  phase : Fin N → Phase

/-- The initial state: empty registry, no call issued yet. -/
def initState (N : Nat) : SState N := ⟨∅, fun _ => Phase.idle⟩

/-- Modelled from the spec: the atomic transitions of the idempotency
engine (spec section 4.5), with `keys i` the Resource Key computed from
call i's request.  A call entering the engine atomically attempts the
registry insertion: if the key is absent it is inserted and the call
proceeds into the wrapped handler; if the key is present the call fails
immediately with OperationPending, without blocking, retrying or queuing.
On completion of the handler the entry is removed unconditionally. -/
inductive SStep {N : Nat} (keys : Fin N → String) : SState N → SState N → Prop
  | startWin (s : SState N) (i : Fin N)
      (hp : s.phase i = Phase.idle) (hm : keys i ∉ s.registry) :
      SStep keys s ⟨insert (keys i) s.registry, Function.update s.phase i Phase.inHandler⟩
  | startPending (s : SState N) (i : Fin N)
      (hp : s.phase i = Phase.idle) (hm : keys i ∈ s.registry) :
      SStep keys s ⟨s.registry, Function.update s.phase i Phase.donePending⟩
  | finish (s : SState N) (i : Fin N)
      (hp : s.phase i = Phase.inHandler) :
      SStep keys s ⟨s.registry.erase (keys i), Function.update s.phase i Phase.doneCompleted⟩

/-- States reachable from the initial state by interleaving the engine's
atomic transitions in any order. -/
def Reachable {N : Nat} (keys : Fin N → String) (s : SState N) : Prop :=
  Relation.ReflTransGen (SStep keys) (initState N) s

/-- The inductive invariant of the idempotency engine: for every key at
most one call is inside the wrapped handler; every call inside the handler
holds its key in the registry and every registered key is held by some
call inside the handler; and every call that failed with OperationPending
lost the insertion race to some call that entered the handler. -/
structure SerialInv {N : Nat} (keys : Fin N → String) (s : SState N) : Prop where
  uniqInHandler : ∀ i j, s.phase i = Phase.inHandler → s.phase j = Phase.inHandler →
    keys i = keys j → i = j
  handlerKeyRegistered : ∀ i, s.phase i = Phase.inHandler → keys i ∈ s.registry
  registeredKeyInHandler : ∀ k, k ∈ s.registry →
    ∃ i, s.phase i = Phase.inHandler ∧ keys i = k
  pendingLostRace : ∀ i, s.phase i = Phase.donePending →
    ∃ j, s.phase j = Phase.inHandler ∨ s.phase j = Phase.doneCompleted

/-- Concrete two-call system used to witness the idempotency theorems:
both calls target the Resource Key "vol". -/
def keysW : Fin 2 → String := fun _ => "vol"

/-- Witness state after call 0 wins the insertion race. -/
def sW1 : SState 2 :=
  ⟨insert (keysW 0) (initState 2).registry,
   Function.update (initState 2).phase 0 Phase.inHandler⟩

/-- Witness state after call 1 subsequently loses the insertion race while
call 0 is still inside the handler. -/
def sW2 : SState 2 :=
  ⟨sW1.registry, Function.update sW1.phase 1 Phase.donePending⟩

end Gocsi

namespace Gocsi

/-! ## Theorems about the logging interceptor -/

/-- Characterization of the field loop once the colon has been printed:
every further kept field is appended with its `, ` separator. -/
theorem rprintLoop_true (rest : Fields) : ∀ out : String,
    rprintLoop rest out true true = out ++ commaTail (keptFields rest) := by
  induction rest with
  | nil => intro out; simp [rprintLoop, keptFields, commaTail]
  | cons f rest ih =>
    intro out
    by_cases hcred : f.1 == "UserCredentials"
    · simp [rprintLoop, hcred, keptFields, List.filter_cons, ih]
    · by_cases hempty : emptyVal f.2
      · simp [rprintLoop, hcred, hempty, keptFields, List.filter_cons, ih]
      · simp only [rprintLoop, hcred, hempty, if_false, Bool.false_eq_true, if_true]
        rw [ih]
        simp [keptFields, List.filter_cons, hcred, hempty, commaTail,
          String.append_assoc]

/-- Characterization of the field loop started with clear flags: the first
kept field brings the `: ` introducer, further kept fields their `, `
separators, and a payload with no kept field leaves the buffer
untouched. -/
theorem rprintLoop_false (fields : Fields) : ∀ out : String,
    rprintLoop fields out false false = out ++ specFieldJoin (keptFields fields) := by
  induction fields with
  | nil => intro out; simp [rprintLoop, keptFields, specFieldJoin]
  | cons f rest ih =>
    intro out
    by_cases hcred : f.1 == "UserCredentials"
    · simp [rprintLoop, hcred, keptFields, List.filter_cons, ih]
    · by_cases hempty : emptyVal f.2
      · simp [rprintLoop, hcred, hempty, keptFields, List.filter_cons, ih]
      · simp only [rprintLoop, hcred, hempty, if_false, Bool.false_eq_true, if_true]
        rw [rprintLoop_true]
        simp [keptFields, List.filter_cons, hcred, hempty, specFieldJoin,
          String.append_assoc]

/-- rprintReqOrRep renders exactly the kept fields: no output at all when
every field is denylisted or empty, otherwise the `: ` introducer and the
`field=value` pairs separated by `, `. -/
theorem rprint_eq_spec (fields : Fields) :
    rprintReqOrRep fields = specFieldJoin (keptFields fields) := by
  rw [rprintReqOrRep, rprintLoop_false]
  exact (keptFields fields) |> specFieldJoin |> String.empty_append

/-- Claim C6: when rendering a request or response payload, the logger
emits each field as a `field=value` pair, pairs separated by `, `; it
omits every field whose rendered text is the empty string, the empty-list
marker, the nil marker, or the empty-map marker; and when every field is
omitted it prints no colon/field section at all (specFieldJoin of the
empty list is the empty string, otherwise a leading `: ` and the
`, `-separated pairs). -/
theorem rprint_fields_rendering :
    ∀ fields : Fields,
      rprintReqOrRep fields =
        specFieldJoin (fields.filter fun f =>
          !(f.1 == "UserCredentials") &&
          !(f.2 == "" || f.2 == "[]" || f.2 == "<nil>" || f.2 == "map[]")) :=
  fun fields => rprint_eq_spec fields

/-- Claim C8: the denylisted UserCredentials field never influences the
rendered output: two payloads that differ only in the value of their
UserCredentials field render identically. -/
theorem user_credentials_noninterference :
    ∀ (pre post : Fields) (v₁ v₂ : String),
      rprintReqOrRep (pre ++ ("UserCredentials", v₁) :: post) =
      rprintReqOrRep (pre ++ ("UserCredentials", v₂) :: post) := by
  intro pre post v₁ v₂
  rw [rprint_eq_spec, rprint_eq_spec]
  have h : ∀ v : String,
      keptFields (pre ++ ("UserCredentials", v) :: post) =
        keptFields pre ++ keptFields post := by
    intro v
    simp [keptFields, List.filter_append, List.filter_cons]
  rw [h v₁, h v₂]

/-- Claim C10: a nil request payload short-circuits the logging
interceptor entirely: the wrapped handler's outcome is returned directly
and neither writer receives a line, even when both sinks are
configured. -/
theorem nil_request_bypasses_logging :
    ∀ (opts : LoggingOpts) (method : String) (reqID : Option Nat)
      (next : Option Fields × Option String),
      handle opts method reqID none next = .ok (next, opts) :=
  fun _ _ _ _ => rfl

/-- Claim C5: evaluation of loggingInterceptor.handle at the failing
configuration: request logging disabled (nil request writer), response
logging enabled, non-nil request.  The code writes the request line to the
nil writer unconditionally (interceptors_logger.go line 119 has no nil
check, unlike line 126 for the response writer), so the call panics with a
nil-pointer dereference instead of being a no-op for the disabled
direction and writing the response line. -/
theorem response_only_logging_panics :
    handle ⟨none, some []⟩ "/csi.Controller/CreateVolume" (some 1)
      (some [("Name", "Test Volume")]) (some [("Id", "4")], none) =
      .error .nilWriterWrite := rfl

/-- Counterexample to claim C9 as stated: with request logging disabled
and response logging enabled, a call with a non-nil request does not
return the wrapped handler's response and error at all - it dies in the
unguarded write to the nil request writer. -/
theorem logger_panics_not_passthrough :
    handle ⟨none, some []⟩ "/csi.Controller/DeleteVolume" none
      (some [("VolumeId", "4")]) (none, some "boom") =
      .error .nilWriterWrite := rfl

/-- Claim C9 (amended): whenever the interceptor completes - that is,
whenever the request writer is configured or the request is nil - it is
observation-only: it returns the wrapped handler's response and error
unchanged, appends at most one line per direction per call, and appends
nothing to a disabled direction. -/
theorem logger_observation_only (opts : LoggingOpts) (method : String)
    (reqID : Option Nat) (req : Option Fields)
    (next : Option Fields × Option String)
    (h : opts.reqw ≠ none ∨ req = none) :
    ∃ reqw' repw',
      handle opts method reqID req next = .ok (next, ⟨reqw', repw'⟩) ∧
      lineCount reqw' ≤ lineCount opts.reqw + 1 ∧
      lineCount repw' ≤ lineCount opts.repw + 1 ∧
      (opts.reqw = none → reqw' = none) ∧
      (opts.repw = none → repw' = none) := by
  cases req with
  | none =>
    exact ⟨opts.reqw, opts.repw, rfl, Nat.le_succ _, Nat.le_succ _,
      fun hn => hn, fun hn => hn⟩
  | some reqFields =>
    rcases h with hne | hn
    · obtain ⟨rl, hrl⟩ := Option.ne_none_iff_exists'.mp hne
      cases hrepw : opts.repw with
      | none =>
        refine ⟨some (rl ++ [lineHead "REQ" method reqID ++ rprintReqOrRep reqFields]),
          none, ?_, ?_, ?_, ?_, ?_⟩
        · simp [handle, hrl, hrepw, fprintlnTo]
        · simp [hrl, lineCount]
        · simp [lineCount]
        · simp [hrl]
        · intro; rfl
      | some pl =>
        refine ⟨some (rl ++ [lineHead "REQ" method reqID ++ rprintReqOrRep reqFields]),
          some (pl ++ [repLineOf method reqID next.2 next.1]), ?_, ?_, ?_, ?_, ?_⟩
        · simp [handle, hrl, hrepw, fprintlnTo]
        · simp [hrl, lineCount]
        · simp [hrepw, lineCount]
        · simp [hrl]
        · simp [hrepw]
    · exact absurd hn (by simp)

/-- Counterexample to claim C7 as stated: when the wrapped call fails and
still returns a non-nil response payload, the response line carries both
the failure's message and the payload's non-empty fields - the two prints
are independent if statements (interceptors_logger.go lines 137-145), not
an either/or.  Here the logged response line is
"/csi.Controller/CreateVolume: : boom: Id=4", containing both the error
text "boom" and the field "Id=4". -/
theorem response_line_both_error_and_fields :
    handle ⟨some [], some []⟩ "/csi.Controller/CreateVolume" none
      (some [("Name", "v")]) (some [("Id", "4")], some "boom") =
      .ok ((some [("Id", "4")], some "boom"),
        ⟨some ["/csi.Controller/CreateVolume: : Name=v"],
         some ["/csi.Controller/CreateVolume: : boom: Id=4"]⟩) := rfl

/-- Claim C7 (amended): on return from the wrapped call, with response
logging enabled and a non-nil request, the response line carries the
method name and the correlation id, then the failure's message when the
call failed, else the response payload's non-empty fields - so exactly one
of the two appears whenever a failed call carries a nil response payload
(the hypothesis), and the failure's message takes precedence. -/
theorem response_line_exactly_one (method : String) (reqID : Option Nat)
    (rl pl : List String) (rf : Fields) (rep : Option Fields)
    (failed : Option String) (hfr : failed = none ∨ rep = none) :
    handle ⟨some rl, some pl⟩ method reqID (some rf) (rep, failed) =
      .ok ((rep, failed),
        ⟨some (rl ++ [lineHead "REQ" method reqID ++ rprintReqOrRep rf]),
         some (pl ++ [lineHead "REP" method reqID ++
           (match failed, rep with
            | some msg, _ => ": " ++ msg
            | none, some fields => rprintReqOrRep fields
            | none, none => "")])⟩) := by
  rcases hfr with hf | hr
  · subst hf
    cases rep with
    | none => simp [handle, fprintlnTo, repLineOf, String.append_empty]
    | some fields =>
      simp [handle, fprintlnTo, repLineOf, String.append_empty]
  · subst hr
    cases failed with
    | none => simp [handle, fprintlnTo, repLineOf, String.append_empty]
    | some msg =>
      simp [handle, fprintlnTo, repLineOf, String.append_empty,
        String.append_assoc]

/-- Witness for the amended claim C7 at a concrete failed call with a nil
response payload: only the failure's message appears on the response
line. -/
theorem response_line_exactly_one_witness :
    handle ⟨some [], some []⟩ "/csi.Controller/DeleteVolume" none
      (some [("VolumeId", "4")]) (none, some "volume not found") =
      .ok ((none, some "volume not found"),
        ⟨some ([] ++ [lineHead "REQ" "/csi.Controller/DeleteVolume" none ++
            rprintReqOrRep [("VolumeId", "4")]]),
         some ([] ++ [lineHead "REP" "/csi.Controller/DeleteVolume" none ++
            (": " ++ "volume not found")])⟩) :=
  response_line_exactly_one "/csi.Controller/DeleteVolume" none [] []
    [("VolumeId", "4")] none (some "volume not found") (Or.inr rfl)

/-- Witness for the amended claim C9 at a concrete call with both sinks
configured: the interceptor completes, hands back the handler outcome
untouched and grows each sink by at most one line. -/
theorem logger_observation_only_witness :
    ∃ reqw' repw',
      handle ⟨some [], some []⟩ "/csi.Identity/GetPluginInfo" (some 2)
        (some [("Version", "0.1.0")]) (some [("Name", "mock")], none) =
        .ok ((some [("Name", "mock")], none), ⟨reqw', repw'⟩) ∧
      lineCount reqw' ≤ lineCount (some ([] : List String)) + 1 ∧
      lineCount repw' ≤ lineCount (some ([] : List String)) + 1 ∧
      ((some ([] : List String) : Option (List String)) = none → reqw' = none) ∧
      ((some ([] : List String) : Option (List String)) = none → repw' = none) :=
  logger_observation_only ⟨some [], some []⟩ "/csi.Identity/GetPluginInfo"
    (some 2) (some [("Version", "0.1.0")]) (some [("Name", "mock")], none)
    (Or.inl (by simp))

/-! ## Theorems about the version model and spec validator -/

/-- Claim C2: the version check succeeds exactly on field-for-field
membership of the supported set; a nil requested version is never
supported and the failure names "nil"; against the configured set
{0.1.0, 0.2.0, 1.0.0, 1.1.0}, requesting 0.0.0 or 1.2.0 fails as
unsupported with an invalid-argument error naming the offending version
text, and any exact member succeeds. -/
theorem version_check_exact_match :
    (∀ (S : List Version) (v : Version),
        checkVersion S (some v) = .ok () ↔ v ∈ S) ∧
    (∀ S : List Version,
        checkVersion S none = .error (.unsupportedVersion "nil")) ∧
    (checkVersion mockSupportedVersions (some ⟨0, 0, 0⟩) =
        .error (.unsupportedVersion "0.0.0")) ∧
    (checkVersion mockSupportedVersions (some ⟨1, 2, 0⟩) =
        .error (.unsupportedVersion "1.2.0")) ∧
    (∀ v ∈ mockSupportedVersions,
        checkVersion mockSupportedVersions (some v) = .ok ()) ∧
    (specErrorMessage (.unsupportedVersion "0.0.0") =
        "invalid request version: 0.0.0") ∧
    (specErrorMessage (.unsupportedVersion "nil") =
        "invalid request version: nil") := by
  refine ⟨?_, fun _ => rfl, rfl, rfl, ?_, rfl, rfl⟩
  · intro S v
    by_cases h : v ∈ S <;> simp [checkVersion, h]
  · intro v hv
    simp [checkVersion, hv]

/-- Witness for claim C2 at a concrete supported member: requesting
exactly 0.1.0 against the mock supported set succeeds. -/
theorem version_check_exact_match_witness :
    checkVersion mockSupportedVersions (some ⟨0, 1, 0⟩) = .ok () :=
  version_check_exact_match.2.2.2.2.1 ⟨0, 1, 0⟩ (by simp [mockSupportedVersions])

/-- Claim C3: when the requested version passes and some configured
required field is empty, the spec validator fails the call with a
MissingRequiredField error naming a missing field, and the wrapped
handler is never invoked - its invocation count is zero. -/
theorem missing_required_field_short_circuits {α : Type}
    (S : List Version) (ver : Option Version)
    (required : List (String × String)) (handler : Unit → α)
    (hver : checkVersion S ver = .ok ())
    (hmiss : ∃ f ∈ required, f.2 = "") :
    ∃ name, (name, "") ∈ required ∧
      specValidator S ver required handler =
        (.error (.missingRequiredField name), 0) := by
  obtain ⟨f, hf, hfe⟩ := hmiss
  cases hfind : required.find? (fun f => f.2 == "") with
  | none =>
    exact absurd (by simp [hfe]) (List.find?_eq_none.mp hfind f hf)
  | some g =>
    have hg2 : g.2 = "" := by simpa using List.find?_some hfind
    refine ⟨g.1, ?_, ?_⟩
    · have := List.mem_of_find?_eq_some hfind
      rwa [show ((g.1, "") : String × String) = g from Prod.ext rfl hg2.symm]
    · simp [specValidator, hver, hfind]

/-- Witness for claim C3: deleting with the required volume-name field
empty fails with the field-named error and a handler invocation count of
zero, as in the Missing Name context of controller_test.go. -/
theorem missing_required_field_short_circuits_witness :
    specValidator mockSupportedVersions (some ⟨0, 1, 0⟩)
      [("volume name", "")] (fun _ => (42 : Nat)) =
      (.error (.missingRequiredField "volume name"), 0) := by
  obtain ⟨name, hmem, heq⟩ :=
    missing_required_field_short_circuits mockSupportedVersions
      (some ⟨0, 1, 0⟩) [("volume name", "")] (fun _ => (42 : Nat))
      (by simp [checkVersion, mockSupportedVersions])
      ⟨("volume name", ""), by simp, rfl⟩
  have hname : name = "volume name" := by simpa using hmem
  rwa [hname] at heq

/-! ## Theorems about the pagination engine -/

/-- Driving the pagination engine against the chunked backing handler from
any start index emits exactly the remaining dataset, in order, whenever
the fuel covers the remaining pages. -/
theorem pageAll_listServe (α : Type) (data : List α) (P : Nat) (hP : 0 < P) :
    ∀ fuel tok : Nat, data.length - tok ≤ fuel * P →
      pageAll (listServe data P) 0 (fuel + 1) tok = (data.drop tok, none) := by
  intro fuel
  induction fuel with
  | zero =>
    intro tok h
    rw [Nat.zero_mul] at h
    have hnext : ¬ (tok + P < data.length) := by omega
    have hdrop : data.drop tok = [] := List.drop_eq_nil_of_le (by omega)
    simp [pageAll, listServe, hnext, hdrop]
  | succ m ih =>
    intro tok h
    by_cases hlt : tok + P < data.length
    · have hne : ¬ (tok + P = 0) := by omega
      have harith : data.length - (tok + P) ≤ m * P := by
        have h1 : data.length ≤ (m + 1) * P + tok := Nat.sub_le_iff_le_add.mp h
        have h2 : (m + 1) * P + tok = m * P + (tok + P) := by ring
        exact Nat.sub_le_iff_le_add.mpr (h2 ▸ h1)
      have hrec := ih (tok + P) harith
      rw [pageAll]
      simp only [listServe, hlt, if_true, hne, if_false, hrec]
      have hdd : data.drop (tok + P) = (data.drop tok).drop P := by
        rw [List.drop_drop, Nat.add_comm]
      rw [hdd, List.take_append_drop]
    · have htake : (data.drop tok).take P = data.drop tok := by
        apply List.take_of_length_le
        rw [List.length_drop]
        omega
      simp [pageAll, listServe, hlt, htake]

/-- Claim C4: driving the pagination engine to exhaustion against a fixed
backing dataset of M items chunked into pages of size P emits exactly the
M items, in the server's page and per-page order, for every page size
P > 0 (with enough fuel for the pages); and any call error terminates the
stream immediately, with no values emitted past the failing call. -/
theorem pagination_exhaustive_traversal :
    (∀ (α : Type) (data : List α) (P fuel : Nat), 0 < P →
        data.length ≤ fuel * P →
        pageAll (listServe data P) 0 (fuel + 1) 0 = (data, none)) ∧
    (∀ (α ε : Type) (call : Nat → Except ε (List α × Nat)) (tok fuel : Nat)
        (e : ε), call tok = .error e →
        pageAll call 0 (fuel + 1) tok = ([], some e)) := by
  constructor
  · intro α data P fuel hP hlen
    have h := pageAll_listServe α data P hP fuel 0 (by simpa using hlen)
    simpa using h
  · intro α ε call tok fuel e hc
    simp [pageAll, hc]

/-- Witness for claim C4: the end-to-end scenario of the spec - three
pages of one item each - emits the items in order and closes with no
error; and a handler error surfaces immediately with nothing emitted. -/
theorem pagination_exhaustive_traversal_witness :
    pageAll (listServe ["item0", "item1", "item2"] 1) 0 4 0 =
      (["item0", "item1", "item2"], none) ∧
    pageAll (fun _ : Nat => (.error "boom" : Except String (List String × Nat)))
        0 1 0 = ([], some "boom") :=
  ⟨pagination_exhaustive_traversal.1 String ["item0", "item1", "item2"] 1 3
      (by decide) (by decide),
   pagination_exhaustive_traversal.2 String String _ 0 0 "boom" rfl⟩

/-! ## Theorems about the idempotency engine -/

/-- The invariant holds in the initial state. -/
theorem serialInv_init (N : Nat) (keys : Fin N → String) :
    SerialInv keys (initState N) := by
  refine ⟨?_, ?_, ?_, ?_⟩
  · intro i j hi hj hk
    simp [initState] at hi
  · intro i hi
    simp [initState] at hi
  · intro k hk
    simp [initState] at hk
  · intro i hi
    simp [initState] at hi

/-- The invariant is preserved by every atomic transition of the
idempotency engine. -/
theorem serialInv_step {N : Nat} {keys : Fin N → String} {s t : SState N}
    (hinv : SerialInv keys s) (hstep : SStep keys s t) : SerialInv keys t := by
  cases hstep with
  | startWin i hp hm =>
    refine ⟨?_, ?_, ?_, ?_⟩
    · intro a b ha hb hk
      dsimp only at ha hb
      rw [Function.update_apply] at ha hb
      by_cases hai : a = i
      · by_cases hbi : b = i
        · rw [hai, hbi]
        · exfalso
          rw [if_neg hbi] at hb
          have hbmem := hinv.handlerKeyRegistered b hb
          rw [← hk, hai] at hbmem
          exact hm hbmem
      · by_cases hbi : b = i
        · exfalso
          rw [if_neg hai] at ha
          have hamem := hinv.handlerKeyRegistered a ha
          rw [hk, hbi] at hamem
          exact hm hamem
        · rw [if_neg hai] at ha
          rw [if_neg hbi] at hb
          exact hinv.uniqInHandler a b ha hb hk
    · intro a ha
      dsimp only at ha ⊢
      rw [Function.update_apply] at ha
      by_cases hai : a = i
      · rw [hai]
        exact Finset.mem_insert_self _ _
      · rw [if_neg hai] at ha
        exact Finset.mem_insert_of_mem (hinv.handlerKeyRegistered a ha)
    · intro k hk
      dsimp only at hk ⊢
      rcases Finset.mem_insert.mp hk with hk1 | hk2
      · exact ⟨i, by rw [Function.update_apply, if_pos rfl], hk1.symm⟩
      · obtain ⟨j, hj, hjk⟩ := hinv.registeredKeyInHandler k hk2
        have hji : ¬ j = i := by
          intro hEq
          rw [hEq, hp] at hj
          exact Phase.noConfusion hj
        exact ⟨j, by rw [Function.update_apply, if_neg hji]; exact hj, hjk⟩
    · intro a ha
      exact ⟨i, Or.inl (by dsimp only; rw [Function.update_apply, if_pos rfl])⟩
  | startPending i hp hm =>
    refine ⟨?_, ?_, ?_, ?_⟩
    · intro a b ha hb hk
      dsimp only at ha hb
      rw [Function.update_apply] at ha hb
      have hai : ¬ a = i := by
        intro hEq
        rw [if_pos hEq] at ha
        exact Phase.noConfusion ha
      have hbi : ¬ b = i := by
        intro hEq
        rw [if_pos hEq] at hb
        exact Phase.noConfusion hb
      rw [if_neg hai] at ha
      rw [if_neg hbi] at hb
      exact hinv.uniqInHandler a b ha hb hk
    · intro a ha
      dsimp only at ha ⊢
      rw [Function.update_apply] at ha
      have hai : ¬ a = i := by
        intro hEq
        rw [if_pos hEq] at ha
        exact Phase.noConfusion ha
      rw [if_neg hai] at ha
      exact hinv.handlerKeyRegistered a ha
    · intro k hk
      dsimp only at hk ⊢
      obtain ⟨j, hj, hjk⟩ := hinv.registeredKeyInHandler k hk
      have hji : ¬ j = i := by
        intro hEq
        rw [hEq, hp] at hj
        exact Phase.noConfusion hj
      exact ⟨j, by rw [Function.update_apply, if_neg hji]; exact hj, hjk⟩
    · intro a ha
      obtain ⟨j, hj, hjk⟩ := hinv.registeredKeyInHandler (keys i) hm
      have hji : ¬ j = i := by
        intro hEq
        rw [hEq, hp] at hj
        exact Phase.noConfusion hj
      exact ⟨j, Or.inl (by dsimp only; rw [Function.update_apply, if_neg hji]; exact hj)⟩
  | finish i hp =>
    refine ⟨?_, ?_, ?_, ?_⟩
    · intro a b ha hb hk
      dsimp only at ha hb
      rw [Function.update_apply] at ha hb
      have hai : ¬ a = i := by
        intro hEq
        rw [if_pos hEq] at ha
        exact Phase.noConfusion ha
      have hbi : ¬ b = i := by
        intro hEq
        rw [if_pos hEq] at hb
        exact Phase.noConfusion hb
      rw [if_neg hai] at ha
      rw [if_neg hbi] at hb
      exact hinv.uniqInHandler a b ha hb hk
    · intro a ha
      dsimp only at ha ⊢
      rw [Function.update_apply] at ha
      have hai : ¬ a = i := by
        intro hEq
        rw [if_pos hEq] at ha
        exact Phase.noConfusion ha
      rw [if_neg hai] at ha
      refine Finset.mem_erase.mpr ⟨?_, hinv.handlerKeyRegistered a ha⟩
      intro hkk
      exact hai (hinv.uniqInHandler a i ha hp hkk)
    · intro k hk
      dsimp only at hk ⊢
      obtain ⟨hkne, hkmem⟩ := Finset.mem_erase.mp hk
      obtain ⟨j, hj, hjk⟩ := hinv.registeredKeyInHandler k hkmem
      have hji : ¬ j = i := by
        intro hEq
        apply hkne
        rw [← hjk, hEq]
      exact ⟨j, by rw [Function.update_apply, if_neg hji]; exact hj, hjk⟩
    · intro a ha
      exact ⟨i, Or.inr (by dsimp only; rw [Function.update_apply, if_pos rfl])⟩

/-- Every reachable state of the idempotency engine satisfies the
inductive invariant. -/
theorem serialInv_reachable {N : Nat} {keys : Fin N → String} {s : SState N}
    (h : Reachable keys s) : SerialInv keys s := by
  induction h with
  | refl => exact serialInv_init N keys
  | tail _ hstep ih => exact serialInv_step ih hstep

/-- Claim C1: (mutual exclusion) in every reachable state of the engine,
at most one guarded call targeting a given Resource Key is inside the
wrapped handler; and (one winner) in a system of N calls that all target
the same key, in any reachable state where every call has been issued
(startWin or startPending both complete in a single atomic transition,
never blocking or queuing) and the winner has not yet finished - the
regime where the handler takes non-trivial time - exactly one call is
inside the handler and the other N - 1 have already failed with the
OperationPending outcome. -/
theorem serial_access_exclusive :
    (∀ (N : Nat) (keys : Fin N → String) (k : String) (s : SState N),
        Reachable keys s →
        (Finset.univ.filter fun i =>
            s.phase i = Phase.inHandler ∧ keys i = k).card ≤ 1) ∧
    (∀ (N : Nat) (k : String) (s : SState N),
        Reachable (fun _ => k) s →
        (∀ i, s.phase i = Phase.inHandler ∨ s.phase i = Phase.donePending) →
        0 < N →
        (Finset.univ.filter fun i => s.phase i = Phase.inHandler).card = 1 ∧
        (Finset.univ.filter fun i => s.phase i = Phase.donePending).card = N - 1) := by
  constructor
  · intro N keys k s hr
    have hinv := serialInv_reachable hr
    apply Finset.card_le_one.mpr
    intro a ha b hb
    rw [Finset.mem_filter] at ha hb
    exact hinv.uniqInHandler a b ha.2.1 hb.2.1 (ha.2.2.trans hb.2.2.symm)
  · intro N k s hr hall hN
    have hinv := serialInv_reachable hr
    have hle : (Finset.univ.filter fun i => s.phase i = Phase.inHandler).card ≤ 1 := by
      apply Finset.card_le_one.mpr
      intro a ha b hb
      rw [Finset.mem_filter] at ha hb
      exact hinv.uniqInHandler a b ha.2 hb.2 rfl
    have hpos : 0 < (Finset.univ.filter fun i => s.phase i = Phase.inHandler).card := by
      rw [Finset.card_pos]
      by_contra hemp
      rw [Finset.not_nonempty_iff_eq_empty] at hemp
      have hallpend : ∀ i, s.phase i = Phase.donePending := by
        intro i
        rcases hall i with h1 | h2
        · exfalso
          have hmem : i ∈ Finset.univ.filter fun i => s.phase i = Phase.inHandler :=
            Finset.mem_filter.mpr ⟨Finset.mem_univ i, h1⟩
          rw [hemp] at hmem
          exact Finset.not_mem_empty i hmem
        · exact h2
      obtain ⟨j, hj⟩ := hinv.pendingLostRace ⟨0, hN⟩ (hallpend ⟨0, hN⟩)
      rcases hj with hj1 | hj2
      · rw [hallpend j] at hj1
        exact Phase.noConfusion hj1
      · rw [hallpend j] at hj2
        exact Phase.noConfusion hj2
    have hcard1 : (Finset.univ.filter fun i => s.phase i = Phase.inHandler).card = 1 :=
      Nat.le_antisymm hle hpos
    refine ⟨hcard1, ?_⟩
    have hdisj : Disjoint
        (Finset.univ.filter fun i => s.phase i = Phase.inHandler)
        (Finset.univ.filter fun i => s.phase i = Phase.donePending) := by
      rw [Finset.disjoint_left]
      intro a ha hb
      rw [Finset.mem_filter] at ha hb
      rw [ha.2] at hb
      exact Phase.noConfusion hb.2
    have hunion :
        (Finset.univ.filter fun i => s.phase i = Phase.inHandler) ∪
          (Finset.univ.filter fun i => s.phase i = Phase.donePending) =
          Finset.univ := by
      apply Finset.eq_univ_of_forall
      intro i
      rw [Finset.mem_union, Finset.mem_filter, Finset.mem_filter]
      rcases hall i with h1 | h2
      · exact Or.inl ⟨Finset.mem_univ i, h1⟩
      · exact Or.inr ⟨Finset.mem_univ i, h2⟩
    have hcards := Finset.card_union_of_disjoint hdisj
    rw [hunion, Finset.card_univ, Fintype.card_fin] at hcards
    omega

/-- Witness for claim C1 on the concrete two-call system: call 0 wins the
insertion race for key "vol" and, while it is still inside the handler,
call 1 is rejected immediately with OperationPending - the reachable state
has exactly one call in the handler and 2 - 1 pending rejections. -/
theorem serial_access_exclusive_witness :
    (Finset.univ.filter fun i : Fin 2 =>
        sW2.phase i = Phase.inHandler ∧ keysW i = "vol").card ≤ 1 ∧
    ((Finset.univ.filter fun i : Fin 2 => sW2.phase i = Phase.inHandler).card = 1 ∧
     (Finset.univ.filter fun i : Fin 2 => sW2.phase i = Phase.donePending).card = 2 - 1) := by
  have h1 : SStep keysW (initState 2) sW1 :=
    SStep.startWin (initState 2) 0 rfl (by simp [initState])
  have h2 : SStep keysW sW1 sW2 :=
    SStep.startPending sW1 1 (by decide) (by simp [sW1, keysW, initState])
  have hreach : Reachable keysW sW2 :=
    Relation.ReflTransGen.tail (Relation.ReflTransGen.single h1) h2
  exact ⟨serial_access_exclusive.1 2 keysW "vol" sW2 hreach,
    serial_access_exclusive.2 2 "vol" sW2 hreach (by decide) (by decide)⟩

end Gocsi
